import Mathlib

/-
  Verification development for the models in src/models.py: a perceptron,
  a scalar regression network, a digit classifier, and a recurrent
  language-identification network.  The external autodiff engine nn is
  modelled over exact rationals: a computation-graph node is identified
  with the rational matrix it evaluates to (matrices are lists of rows),
  and the engine operations Linear, AddBias, ReLU, Add, DotProduct,
  SquareLoss and Parameter.update are modelled from the collaborator
  contract the spec gives for them.  Gradients and validation accuracy
  are kept abstract (they are arbitrary outputs of the external engine),
  so training loops take them as function arguments.
-/

abbrev Mat : Type := List (List ℚ)

namespace NN

/-- Dot product of two rows, truncating at the shorter one. -/
def dotList (a b : List ℚ) : ℚ := (List.zipWith (fun u v => u * v) a b).sum

/-- Number of columns of a matrix: the length of its first row. -/
def numCols (m : Mat) : Nat := (m.headD []).length

/-- Column j of a matrix. -/
def col (m : Mat) (j : Nat) : List ℚ := m.map (fun row => row.getD j 0)

/-- Modelled from the spec: the engine op Linear(batch, weight), the
matrix product of a batch of row vectors with a weight matrix. -/
def linear (x w : Mat) : Mat :=
  x.map (fun row => (List.range (numCols w)).map (fun j => dotList row (col w j)))

/-- Modelled from the spec: the engine op AddBias(batch, bias), adding the
single bias row to every row of the batch. -/
def addBias (x b : Mat) : Mat :=
  x.map (fun row => List.zipWith (fun u v => u + v) row (b.headD []))

/-- Modelled from the spec: the engine op ReLU, elementwise max(0, x). -/
def relu (x : Mat) : Mat := x.map (fun row => row.map (fun v => max v 0))

/-- Modelled from the spec: the engine op Add, elementwise sum of two
matrices of matching shape. -/
def add (a b : Mat) : Mat :=
  List.zipWith (fun r s => List.zipWith (fun u v => u + v) r s) a b

/-- Modelled from the spec: as_scalar of the engine op DotProduct on two
1-row nodes. -/
def dotScalar (a b : Mat) : ℚ := dotList (a.headD []) (b.headD [])

/-- Modelled from the spec: Parameter.update(gradient, multiplier), the
in-place additive update param += multiplier * gradient. -/
def update (m g : Mat) (c : ℚ) : Mat :=
  List.zipWith (fun r s => List.zipWith (fun u v => u + c * v) r s) m g

/-- Modelled from the spec: as_scalar of the engine op SquareLoss, the
mean of the halved squared differences of the two batches. -/
def squareLoss (a b : Mat) : ℚ :=
  let ds := (List.zipWith (fun r s => List.zipWith (fun u v => (u - v) * (u - v)) r s) a b).flatten
  ds.sum / (2 * ds.length)

end NN

/-- Shape m r c: the matrix has r rows, each of length c. -/
def Shape (m : Mat) (r c : Nat) : Prop := m.length = r ∧ ∀ row ∈ m, row.length = c

instance (m : Mat) (r c : Nat) : Decidable (Shape m r c) := by
  unfold Shape
  infer_instance

namespace PerceptronModel

/-- PerceptronModel.run: the score of a data point, the dot product of the
weight row with the input row (as_scalar applied). -/
def run (w x : Mat) : ℚ := NN.dotScalar w x

/-- PerceptronModel.get_prediction: -1 when the score is negative, else 1. -/
def get_prediction (w x : Mat) : ℚ := if run w x < 0 then -1 else 1

/-- One pass of PerceptronModel.train over dataset.iterate_once(1):
returns the weights after the pass and whether any update was applied
(the continuing flag was set to -1). -/
def trainPass (w : Mat) : List (Mat × ℚ) → Mat × Bool
  | [] => (w, false)
  | (x, y) :: rest =>
    if get_prediction w x ≠ y then
      let r := trainPass (NN.update w x y) rest
      (r.1, true)
    else trainPass w rest

/-- PerceptronModel.train: repeat full passes until one applies no update.
The while loop is given fuel; none models non-termination within fuel. -/
def train (fuel : Nat) (w : Mat) (ds : List (Mat × ℚ)) : Option Mat :=
  match fuel with
  | 0 => none
  | Nat.succ n =>
    let r := trainPass w ds
    if r.2 then train n r.1 ds else some r.1

end PerceptronModel

namespace RegressionModel

def learning_rate : ℚ := -0.005

def hidden_layer : Nat := 50

structure RParams where
  w1 : Mat
  b1 : Mat
  w2 : Mat
  b2 : Mat
deriving DecidableEq

/-- Parameter shapes fixed by the RegressionModel constructor:
w1 : 1 x 50, b1 : 1 x 50, w2 : 50 x 1, b2 : 1 x 1. -/
def WellFormed (p : RParams) : Prop :=
  Shape p.w1 1 hidden_layer ∧ Shape p.b1 1 hidden_layer ∧
  Shape p.w2 hidden_layer 1 ∧ Shape p.b2 1 1

instance (p : RParams) : Decidable (WellFormed p) := by
  unfold WellFormed
  infer_instance

/-- RegressionModel.run: AddBias(Linear(ReLU(AddBias(Linear(x, w1), b1)), w2), b2). -/
def run (p : RParams) (x : Mat) : Mat :=
  let dot := NN.linear x p.w1
  let bias_added := NN.relu (NN.addBias dot p.b1)
  let dot2 := NN.linear bias_added p.w2
  let bias_added2 := NN.addBias dot2 p.b2
  bias_added2

/-- RegressionModel.get_loss: as_scalar of SquareLoss(run(x), y). -/
def get_loss (p : RParams) (x y : Mat) : ℚ := NN.squareLoss (run p x) y

/-- The parameter update of one non-terminating iteration of
RegressionModel.train: the engine returns gradients for w1, w2, b1, b2 in
one call and each is updated with multiplier learning_rate. -/
def updateStep (p : RParams) (g : Mat × Mat × Mat × Mat) : RParams :=
  ⟨NN.update p.w1 g.1 learning_rate,
   NN.update p.b1 g.2.2.1 learning_rate,
   NN.update p.w2 g.2.1 learning_rate,
   NN.update p.b2 g.2.2.2 learning_rate⟩

/-- RegressionModel.train over a list of drawn batches (iterate_forever is
an infinite stream; none models running past the listed prefix).  gradFn
is the external differentiation engine: gradients of the loss at the
current parameters for [w1, w2, b1, b2]. -/
def train (gradFn : RParams → Mat × Mat → Mat × Mat × Mat × Mat)
    (p : RParams) : List (Mat × Mat) → Option RParams
  | [] => none
  | (x, y) :: rest =>
    if get_loss p x y < 0.02 then some p
    else train gradFn (updateStep p (gradFn p (x, y))) rest

end RegressionModel

namespace DigitClassificationModel

def learning_rate : ℚ := -0.05

structure DParams where
  w1 : Mat
  b1 : Mat
  w2 : Mat
  b2 : Mat
deriving DecidableEq

/-- DigitClassificationModel.run: AddBias(Linear(ReLU(AddBias(Linear(x, w1), b1)), w2), b2). -/
def run (p : DParams) (x : Mat) : Mat :=
  let dot := NN.linear x p.w1
  let bias_added := NN.relu (NN.addBias dot p.b1)
  let dot2 := NN.linear bias_added p.w2
  let bias_added2 := NN.addBias dot2 p.b2
  bias_added2

/-- The parameter update of one non-terminating iteration of
DigitClassificationModel.train: gradients for w1, w2, b1, b2 in one call,
each parameter updated with multiplier learning_rate. -/
def updateStep (p : DParams) (g : Mat × Mat × Mat × Mat) : DParams :=
  ⟨NN.update p.w1 g.1 learning_rate,
   NN.update p.b1 g.2.2.1 learning_rate,
   NN.update p.w2 g.2.1 learning_rate,
   NN.update p.b2 g.2.2.2 learning_rate⟩

/-- DigitClassificationModel.train over a list of drawn batches.  valAcc
models dataset.get_validation_accuracy() as a function of the current
parameters; gradFn models the differentiation engine.  Each iteration
first queries the validation accuracy and stops at the threshold 0.978,
otherwise computes the loss gradients and updates the parameters.  none
models running past the listed batch prefix without stopping. -/
def train (valAcc : DParams → ℚ) (gradFn : DParams → Mat × Mat → Mat × Mat × Mat × Mat)
    (p : DParams) : List (Mat × Mat) → Option DParams
  | [] => none
  | b :: rest =>
    if 0.978 ≤ valAcc p then some p
    else train valAcc gradFn (updateStep p (gradFn p b)) rest

end DigitClassificationModel

namespace LanguageIDModel

def learning_rate : ℚ := -0.05

structure LParams where
  w1 : Mat
  b1 : Mat
  w2 : Mat
  b2 : Mat
  w3 : Mat
  b3 : Mat
  WHidden : Mat
  WHidden2 : Mat
deriving DecidableEq

/-- Replace the W_hidden2 parameter of a LanguageIDModel. -/
def setWHidden2 (p : LParams) (m : Mat) : LParams :=
  ⟨p.w1, p.b1, p.w2, p.b2, p.w3, p.b3, p.WHidden, m⟩

/-- The recurrence step of LanguageIDModel.run applied to an
already-initialized hidden state:
x = Add(Linear(elem, W_hidden), Linear(x, W_hidden2)). -/
def hStep (p : LParams) (h elem : Mat) : Mat :=
  NN.add (NN.linear elem p.WHidden) (NN.linear h p.WHidden2)

/-- The body of the recurrence loop of LanguageIDModel.run: the
accumulator is none while the first flag is still set; the first
character sets x = ReLU(Linear(elem, W_hidden)), every later one applies
hStep. -/
def hFold (p : LParams) (acc : Option Mat) (elem : Mat) : Option Mat :=
  match acc with
  | none => some (NN.relu (NN.linear elem p.WHidden))
  | some h => some (hStep p h elem)

/-- The recurrence loop of LanguageIDModel.run over the character list. -/
def hState (p : LParams) (xs : List Mat) : Option Mat := xs.foldl (hFold p) none

/-- The recurrence of LanguageIDModel.run unrolled from an initial hidden
state over the remaining characters. -/
def hRec (p : LParams) (h : Mat) (xs : List Mat) : Mat := xs.foldl (hStep p) h

/-- The hidden-state recurrence as the spec states it: ReLU is applied on
every step, including each subsequent character.  Written from the spec
sentence for comparison with hState, which follows the source. -/
def hStateSpec (p : LParams) (xs : List Mat) : Option Mat :=
  xs.foldl (fun acc elem =>
    match acc with
    | none => some (NN.relu (NN.linear elem p.WHidden))
    | some h => some (NN.relu (NN.add (NN.linear elem p.WHidden) (NN.linear h p.WHidden2)))) none

/-- The three post-recurrence dense layers of LanguageIDModel.run:
two ReLU(AddBias(Linear)) stages and a final AddBias(Linear) projection. -/
def denseLayers (p : LParams) (x : Mat) : Mat :=
  let dot := NN.linear x p.w1
  let bias_added := NN.relu (NN.addBias dot p.b1)
  let dot2 := NN.linear bias_added p.w2
  let bias_added2 := NN.relu (NN.addBias dot2 p.b2)
  let dot3 := NN.linear bias_added2 p.w3
  let bias_added3 := NN.addBias dot3 p.b3
  bias_added3

/-- LanguageIDModel.run: fold the recurrence over the character list, then
apply the three dense layers.  On the empty list the loop body never runs,
the hidden-state variable is never bound, and the first dense layer fails:
modelled as none. -/
def run (p : LParams) (xs : List Mat) : Option Mat :=
  (hState p xs).map (denseLayers p)

/-- The gradients the engine returns for the six parameters
[w1, w2, w3, b1, b2, b3] requested by LanguageIDModel.train. -/
structure LGrads where
  gw1 : Mat
  gw2 : Mat
  gw3 : Mat
  gb1 : Mat
  gb2 : Mat
  gb3 : Mat

/-- The parameter update of one non-terminating iteration of
LanguageIDModel.train: w1, w2, w3, b1, b2, b3 are each updated with
multiplier learning_rate; W_hidden and W_hidden2 are not touched. -/
def trainStep (p : LParams) (g : LGrads) : LParams :=
  ⟨NN.update p.w1 g.gw1 learning_rate,
   NN.update p.b1 g.gb1 learning_rate,
   NN.update p.w2 g.gw2 learning_rate,
   NN.update p.b2 g.gb2 learning_rate,
   NN.update p.w3 g.gw3 learning_rate,
   NN.update p.b3 g.gb3 learning_rate,
   p.WHidden, p.WHidden2⟩

/-- LanguageIDModel.train over a list of drawn batches: each iteration
first queries the validation accuracy and stops at the threshold 0.86,
otherwise requests gradients for the six dense parameters and updates
them. -/
def train (valAcc : LParams → ℚ) (gradFn : LParams → List Mat × Mat → LGrads)
    (p : LParams) : List (List Mat × Mat) → Option LParams
  | [] => none
  | b :: rest =>
    if 0.86 ≤ valAcc p then some p
    else train valAcc gradFn (trainStep p (gradFn p b)) rest

end LanguageIDModel

/-- Row selection: the matrix whose i-th row is row idxs[i] of m.  A
permutation of the batch rows is the case where idxs enumerates the row
indices of m exactly once. -/
def selectRows (idxs : List Nat) (m : Mat) : Mat := idxs.map (fun i => m.getD i [])

/-
  Concrete inputs used by witnesses and counterexamples.
-/

/-- A LanguageIDModel parameter set in which every matrix is the 1 x 1
matrix [[1]]. -/
def langOnes : LanguageIDModel.LParams :=
  ⟨[[1]], [[1]], [[1]], [[1]], [[1]], [[1]], [[1]], [[1]]⟩

/-- A LanguageIDModel parameter set in which every matrix is the 1 x 1
matrix [[0]]. -/
def langZeros : LanguageIDModel.LParams :=
  ⟨[[0]], [[0]], [[0]], [[0]], [[0]], [[0]], [[0]], [[0]]⟩

/-- A gradient assignment in which the engine returns [[1]] for each of
the six requested parameters. -/
def langGradOnes : LanguageIDModel.LGrads := ⟨[[1]], [[1]], [[1]], [[1]], [[1]], [[1]]⟩

/-- An all-zero RegressionModel parameter set (degenerate 1 x 1 shapes). -/
def regZero : RegressionModel.RParams := ⟨[[0]], [[0]], [[0]], [[0]]⟩

/-- An all-zero RegressionModel parameter set with the shapes the
constructor fixes: w1 : 1 x 50, b1 : 1 x 50, w2 : 50 x 1, b2 : 1 x 1. -/
def regShaped : RegressionModel.RParams :=
  ⟨[List.replicate 50 0], [List.replicate 50 0], List.replicate 50 [0], [[0]]⟩

/-- An all-zero DigitClassificationModel parameter set. -/
def digitZero : DigitClassificationModel.DParams := ⟨[[0]], [[0]], [[0]], [[0]]⟩

/-
  Theorems.
-/

section PerceptronTheorems

open PerceptronModel

/-- A pass of PerceptronModel.train that applies no update leaves the
weights unchanged and saw every example classified correctly. -/
theorem trainPass_clean (ds : List (Mat × ℚ)) : ∀ w w2 : Mat,
    trainPass w ds = (w2, false) →
    w2 = w ∧ ∀ ex ∈ ds, get_prediction w ex.1 = ex.2 := by
  induction ds with
  | nil =>
    intro w w2 h
    simp only [trainPass, Prod.mk.injEq] at h
    simp [h.1.symm]
  | cons hd tl ih =>
    intro w w2 h
    obtain ⟨x, y⟩ := hd
    by_cases hp : get_prediction w x = y
    · rw [trainPass] at h
      simp only [hp, ne_eq, not_true_eq_false, if_false] at h
      obtain ⟨hw, hall⟩ := ih w w2 h
      refine ⟨hw, ?_⟩
      intro ex hex
      rcases List.mem_cons.mp hex with h1 | h2
      · rw [h1]
        exact hp
      · exact hall ex h2
    · rw [trainPass] at h
      simp only [hp, ne_eq, not_false_eq_true, if_true, Prod.mk.injEq] at h
      exact absurd h.2 (by simp)

/-- Claim C3: if PerceptronModel.train returns, it does so only after a
complete pass over the dataset that applied no weight update, and at that
point get_prediction agrees with the label on every example. -/
theorem perceptron_train_convergent (fuel : Nat) (w : Mat) (ds : List (Mat × ℚ)) (w2 : Mat)
    (h : train fuel w ds = some w2) :
    trainPass w2 ds = (w2, false) ∧ ∀ ex ∈ ds, get_prediction w2 ex.1 = ex.2 := by
  induction fuel generalizing w with
  | zero => simp [train] at h
  | succ n ih =>
    rw [train] at h
    rcases hr : trainPass w ds with ⟨w3, flag⟩
    rw [hr] at h
    cases flag with
    | true =>
      simp only [if_true] at h
      exact ih w3 h
    | false =>
      simp at h
      subst h
      obtain ⟨hw, hall⟩ := trainPass_clean ds w w3 hr
      subst hw
      exact ⟨hr, hall⟩

/-- Witness for C3: a one-example dataset already classified correctly,
on which train returns after its first (clean) pass. -/
theorem perceptron_train_convergent_witness :
    train 1 [[1]] [([[1]], (1 : ℚ))] = some [[1]] ∧
    get_prediction [[1]] [[1]] = 1 := by
  have h : train 1 [[1]] [([[1]], (1 : ℚ))] = some [[1]] := by
    norm_num [train, trainPass, get_prediction, run, NN.dotScalar, NN.dotList]
  exact ⟨h, (perceptron_train_convergent 1 [[1]] [([[1]], (1 : ℚ))] [[1]] h).2
    ([[1]], (1 : ℚ)) (by simp)⟩

/-- Claim C4: get_prediction returns +1 exactly when the score is
non-negative and -1 exactly when it is negative; in particular a score of
exactly 0 is classified +1, and the result is always +1 or -1. -/
theorem perceptron_get_prediction_sign (w x : Mat) :
    (get_prediction w x = 1 ∨ get_prediction w x = -1) ∧
    (0 ≤ run w x → get_prediction w x = 1) ∧
    (run w x < 0 → get_prediction w x = -1) ∧
    (run w x = 0 → get_prediction w x = 1) := by
  by_cases h : run w x < 0
  · have hpred : get_prediction w x = -1 := by simp [get_prediction, h]
    exact ⟨Or.inr hpred, fun h0 => absurd h (not_lt.mpr h0), fun _ => hpred,
      fun h0 => absurd h (by rw [h0]; norm_num)⟩
  · have hpred : get_prediction w x = 1 := by simp [get_prediction, h]
    exact ⟨Or.inl hpred, fun _ => hpred, fun hlt => absurd hlt h, fun _ => hpred⟩

/-- Witness for C4: a weight and input with dot product exactly 0 are
classified +1. -/
theorem perceptron_get_prediction_sign_witness :
    run [[1]] [[0]] = 0 ∧ get_prediction [[1]] [[0]] = 1 := by
  have h0 : run [[1]] [[0]] = 0 := by
    norm_num [run, NN.dotScalar, NN.dotList]
  exact ⟨h0, (perceptron_get_prediction_sign [[1]] [[0]]).2.2.2 h0⟩

end PerceptronTheorems

section RegressionTrainTheorems

open RegressionModel

/-- Claim C5: on each iteration of RegressionModel.train, a batch whose
loss is below 0.02 makes the loop exit immediately with the parameters
untouched (so no update is ever applied after such a batch is drawn);
otherwise the iteration applies updateStep, which updates each of w1, w2,
b1, b2 with the gradient the engine returned for it and multiplier
learning_rate. -/
theorem regression_train_threshold (gradFn : RParams → Mat × Mat → Mat × Mat × Mat × Mat)
    (p : RParams) (x y : Mat) (rest : List (Mat × Mat)) :
    (get_loss p x y < 0.02 → train gradFn p ((x, y) :: rest) = some p) ∧
    (¬ get_loss p x y < 0.02 →
      train gradFn p ((x, y) :: rest) =
        train gradFn (updateStep p (gradFn p (x, y))) rest) ∧
    (∀ (q : RParams) (g : Mat × Mat × Mat × Mat),
      (updateStep q g).w1 = NN.update q.w1 g.1 learning_rate ∧
      (updateStep q g).w2 = NN.update q.w2 g.2.1 learning_rate ∧
      (updateStep q g).b1 = NN.update q.b1 g.2.2.1 learning_rate ∧
      (updateStep q g).b2 = NN.update q.b2 g.2.2.2 learning_rate) := by
  refine ⟨fun h => ?_, fun h => ?_, fun q g => ⟨rfl, rfl, rfl, rfl⟩⟩
  · rw [train]
    simp [h]
  · rw [train]
    simp [h]

/-- Witness for C5: an all-zero model on an all-zero batch has loss 0,
below the threshold, so train stops at once with the parameters intact. -/
theorem regression_train_threshold_witness :
    get_loss regZero [[0]] [[0]] < 0.02 ∧
    train (fun _ _ => ([[0]], [[0]], [[0]], [[0]])) regZero [([[0]], [[0]])] = some regZero := by
  have hl : get_loss regZero [[0]] [[0]] < 0.02 := by
    norm_num [get_loss, RegressionModel.run, regZero, NN.squareLoss, NN.linear, NN.relu,
      NN.addBias, NN.add, NN.dotList, NN.numCols, NN.col, List.range_succ]
  exact ⟨hl, (regression_train_threshold (fun _ _ => ([[0]], [[0]], [[0]], [[0]]))
    regZero [[0]] [[0]] []).1 hl⟩

end RegressionTrainTheorems

section DigitTrainTheorems

open DigitClassificationModel

/-- Any parameters DigitClassificationModel.train returns satisfy the
validation-accuracy threshold it checks. -/
theorem digit_train_acc (valAcc : DParams → ℚ)
    (gradFn : DParams → Mat × Mat → Mat × Mat × Mat × Mat) :
    ∀ (bs : List (Mat × Mat)) (p q : DParams),
      train valAcc gradFn p bs = some q → 0.978 ≤ valAcc q := by
  intro bs
  induction bs with
  | nil => intro p q h; simp [train] at h
  | cons b rest ih =>
    intro p q h
    rw [train] at h
    by_cases hv : (0.978 : ℚ) ≤ valAcc p
    · simp only [hv, if_true, Option.some.injEq] at h
      subst h
      exact hv
    · simp only [hv, if_false] at h
      exact ih _ q h

/-- Claim C6: DigitClassificationModel.train checks the held-out
validation accuracy on each drawn batch and stops at 0.978: whenever it
returns, the returned parameters have validation accuracy at least 0.978,
and once the threshold is observed it returns at once without applying
any further parameter update. -/
theorem digit_train_validation_threshold (valAcc : DParams → ℚ)
    (gradFn : DParams → Mat × Mat → Mat × Mat × Mat × Mat) (p : DParams) :
    (∀ (bs : List (Mat × Mat)) (q : DParams),
      train valAcc gradFn p bs = some q → 0.978 ≤ valAcc q) ∧
    (∀ (b : Mat × Mat) (rest : List (Mat × Mat)), 0.978 ≤ valAcc p →
      train valAcc gradFn p (b :: rest) = some p) ∧
    (∀ (b : Mat × Mat) (rest : List (Mat × Mat)), ¬ 0.978 ≤ valAcc p →
      train valAcc gradFn p (b :: rest) =
        train valAcc gradFn (updateStep p (gradFn p b)) rest) := by
  refine ⟨fun bs q h => digit_train_acc valAcc gradFn bs p q h, fun b rest hv => ?_, fun b rest hv => ?_⟩
  · rw [train]
    simp [hv]
  · rw [train]
    simp [hv]

/-- Witness for C6: with validation accuracy constantly 1, train returns
its parameters unchanged on the first iteration and the returned accuracy
meets the threshold. -/
theorem digit_train_validation_threshold_witness :
    train (fun _ => 1) (fun _ _ => ([[0]], [[0]], [[0]], [[0]])) digitZero [([[0]], [[0]])] =
      some digitZero ∧
    (0.978 : ℚ) ≤ (fun (_ : DParams) => (1 : ℚ)) digitZero := by
  have h : train (fun _ => 1) (fun _ _ => ([[0]], [[0]], [[0]], [[0]])) digitZero [([[0]], [[0]])] =
      some digitZero :=
    (digit_train_validation_threshold (fun _ => 1) (fun _ _ => ([[0]], [[0]], [[0]], [[0]]))
      digitZero).2.1 ([[0]], [[0]]) [] (by norm_num)
  exact ⟨h, (digit_train_validation_threshold (fun _ => 1) (fun _ _ => ([[0]], [[0]], [[0]], [[0]]))
      digitZero).1 [([[0]], [[0]])] digitZero h⟩

end DigitTrainTheorems

section ShapeTheorems

/-- The column count of a matrix of shape n x c with n positive is c. -/
theorem numCols_of_shape (w : Mat) (n c : Nat) (hw : Shape w n c) (hn : 0 < n) :
    NN.numCols w = c := by
  obtain ⟨hlen, hrow⟩ := hw
  cases w with
  | nil => simp at hlen; omega
  | cons hd tl => simpa [NN.numCols] using hrow hd (by simp)

/-- Linear maps a B x n batch through an n x c weight to a B x c result. -/
theorem shape_linear (x w : Mat) (B n c : Nat) (hx : Shape x B n) (hw : Shape w n c)
    (hn : 0 < n) : Shape (NN.linear x w) B c := by
  constructor
  · simpa [NN.linear] using hx.1
  · intro row hrow
    simp only [NN.linear, List.mem_map] at hrow
    obtain ⟨r, _, rfl⟩ := hrow
    simp [numCols_of_shape w n c hw hn]

/-- AddBias keeps the shape of the batch when the bias row matches. -/
theorem shape_addBias (x b : Mat) (B c : Nat) (hx : Shape x B c) (hb : Shape b 1 c) :
    Shape (NN.addBias x b) B c := by
  have hbrow : ((b.head?).getD []).length = c := by
    obtain ⟨hlen, hrow⟩ := hb
    cases b with
    | nil => simp at hlen
    | cons hd tl => simpa using hrow hd (by simp)
  constructor
  · simpa [NN.addBias] using hx.1
  · intro row hrow
    simp only [NN.addBias, List.mem_map] at hrow
    obtain ⟨r, hr, rfl⟩ := hrow
    simp [hbrow, hx.2 r hr]

/-- ReLU preserves shape. -/
theorem shape_relu (x : Mat) (B c : Nat) (hx : Shape x B c) : Shape (NN.relu x) B c := by
  constructor
  · simpa [NN.relu] using hx.1
  · intro row hrow
    simp only [NN.relu, List.mem_map] at hrow
    obtain ⟨r, hr, rfl⟩ := hrow
    simp [hx.2 r hr]

/-- Claim C7: RegressionModel.run is the two-layer composition
AddBias(Linear(ReLU(AddBias(Linear(x, w1), b1)), w2), b2) with hidden
width 50, and on a batch of shape B x 1 with B positive it returns a
node of shape B x 1. -/
theorem regression_run_shape (p : RegressionModel.RParams) (x : Mat) (B : Nat)
    (hp : RegressionModel.WellFormed p) (hx : Shape x B 1) (_hB : 0 < B) :
    Shape (RegressionModel.run p x) B 1 ∧
    RegressionModel.hidden_layer = 50 ∧
    RegressionModel.run p x =
      NN.addBias (NN.linear (NN.relu (NN.addBias (NN.linear x p.w1) p.b1)) p.w2) p.b2 := by
  obtain ⟨h1, h2, h3, h4⟩ := hp
  refine ⟨?_, rfl, rfl⟩
  have s1 : Shape (NN.linear x p.w1) B RegressionModel.hidden_layer :=
    shape_linear x p.w1 B 1 RegressionModel.hidden_layer hx h1 (by norm_num)
  have s2 : Shape (NN.relu (NN.addBias (NN.linear x p.w1) p.b1)) B RegressionModel.hidden_layer :=
    shape_relu _ B _ (shape_addBias _ p.b1 B _ s1 h2)
  have s3 : Shape (NN.linear (NN.relu (NN.addBias (NN.linear x p.w1) p.b1)) p.w2) B 1 :=
    shape_linear _ p.w2 B RegressionModel.hidden_layer 1 s2 h3
      (by norm_num [RegressionModel.hidden_layer])
  exact shape_addBias _ p.b2 B 1 s3 h4

/-- Witness for C7: a concrete well-formed parameter set and a 1 x 1
input batch produce a 1 x 1 output. -/
theorem regression_run_shape_witness :
    RegressionModel.WellFormed regShaped ∧ Shape (RegressionModel.run regShaped [[1]]) 1 1 := by
  have hp : RegressionModel.WellFormed regShaped := by decide
  exact ⟨hp, (regression_run_shape regShaped [[1]] 1 hp (by decide) (by decide)).1⟩

end ShapeTheorems

section LanguageIDTheorems

open LanguageIDModel

/-- Once the hidden state is initialized, the recurrence loop folds hStep
over the remaining characters. -/
theorem foldl_hFold_some (p : LParams) :
    ∀ (xs : List Mat) (h : Mat), xs.foldl (hFold p) (some h) = some (hRec p h xs) := by
  intro xs
  induction xs with
  | nil => intro h; rfl
  | cons a tl ih =>
    intro h
    calc (a :: tl).foldl (hFold p) (some h)
        = tl.foldl (hFold p) (some (hStep p h a)) := rfl
      _ = some (hRec p (hStep p h a) tl) := ih (hStep p h a)
      _ = some (hRec p h (a :: tl)) := rfl

/-- On a non-empty list the recurrence seeds with
ReLU(Linear(x, W_hidden)) and folds hStep over the rest. -/
theorem hState_cons (p : LParams) (x : Mat) (xs : List Mat) :
    hState p (x :: xs) = some (hRec p (NN.relu (NN.linear x p.WHidden)) xs) := by
  calc hState p (x :: xs)
      = xs.foldl (hFold p) (some (NN.relu (NN.linear x p.WHidden))) := rfl
    _ = some (hRec p (NN.relu (NN.linear x p.WHidden)) xs) :=
        foldl_hFold_some p xs (NN.relu (NN.linear x p.WHidden))

/-- Counterexample to C1: the source recurrence applies no ReLU on
subsequent characters, so on the input [[[0]], [[-1]]] with all-ones
parameters the hidden state is [[-1]], while the recurrence the claim
states (hStateSpec, ReLU applied on every step) yields [[0]]. -/
theorem language_recurrence_relu_counterexample :
    hState langOnes [[[0]], [[-1]]] = some [[-1]] ∧
    hStateSpec langOnes [[[0]], [[-1]]] = some [[0]] ∧
    hState langOnes [[[0]], [[-1]]] ≠ hStateSpec langOnes [[[0]], [[-1]]] := by
  refine ⟨?_, ?_, ?_⟩
  · norm_num [langOnes, hState, hFold, hStep, List.foldl_cons,
      NN.linear, NN.relu, NN.add, NN.dotList, NN.numCols, NN.col, List.range_succ]
  · norm_num [langOnes, hStateSpec, List.foldl_cons,
      NN.linear, NN.relu, NN.add, NN.dotList, NN.numCols, NN.col, List.range_succ]
  · norm_num [langOnes, hState, hStateSpec, hFold, hStep, List.foldl_cons,
      NN.linear, NN.relu, NN.add, NN.dotList, NN.numCols, NN.col, List.range_succ]

/-- Claim C1 as amended: in LanguageIDModel.run over a non-empty sequence
the hidden state starts as ReLU(Linear(x_0, W_hidden)) and each later
character applies h = Linear(x_t, W_hidden) + Linear(h, W_hidden2) with
no ReLU on the recurrent step, before the dense layers are applied. -/
theorem language_recurrence_structure (p : LParams) (x : Mat) (xs : List Mat) :
    LanguageIDModel.run p (x :: xs) =
      some (denseLayers p
        (xs.foldl (fun h elem => NN.add (NN.linear elem p.WHidden) (NN.linear h p.WHidden2))
          (NN.relu (NN.linear x p.WHidden)))) := by
  rw [LanguageIDModel.run, hState_cons]
  rfl

/-- Counterexample to C2: in LanguageIDModel.train the recurrent weight
matrices receive no gradient request and no update: whatever gradient
(here [[1]]) the engine would produce for them, the training step leaves
W_hidden and W_hidden2 unchanged rather than applying the learning_rate
update the claim asserts. -/
theorem language_train_recurrent_untouched_counterexample :
    (trainStep langZeros langGradOnes).WHidden = langZeros.WHidden ∧
    (trainStep langZeros langGradOnes).WHidden2 = langZeros.WHidden2 ∧
    (trainStep langZeros langGradOnes).WHidden ≠
      NN.update langZeros.WHidden [[1]] LanguageIDModel.learning_rate ∧
    (trainStep langZeros langGradOnes).WHidden2 ≠
      NN.update langZeros.WHidden2 [[1]] LanguageIDModel.learning_rate := by
  refine ⟨rfl, rfl, ?_, ?_⟩
  · norm_num [trainStep, langZeros, NN.update, LanguageIDModel.learning_rate]
  · norm_num [trainStep, langZeros, NN.update, LanguageIDModel.learning_rate]

/-- Claim C2 as amended: on every non-terminating iteration of
LanguageIDModel.train exactly the six dense parameters w1, w2, w3, b1,
b2, b3 receive a gradient and an update with multiplier learning_rate,
while W_hidden and W_hidden2 are left unchanged. -/
theorem language_train_updates (valAcc : LParams → ℚ)
    (gradFn : LParams → List Mat × Mat → LGrads) (p : LParams)
    (b : List Mat × Mat) (rest : List (List Mat × Mat))
    (h : ¬ (0.86 : ℚ) ≤ valAcc p) :
    train valAcc gradFn p (b :: rest) =
      train valAcc gradFn (trainStep p (gradFn p b)) rest ∧
    ∀ (q : LParams) (g : LGrads),
      (trainStep q g).w1 = NN.update q.w1 g.gw1 LanguageIDModel.learning_rate ∧
      (trainStep q g).w2 = NN.update q.w2 g.gw2 LanguageIDModel.learning_rate ∧
      (trainStep q g).w3 = NN.update q.w3 g.gw3 LanguageIDModel.learning_rate ∧
      (trainStep q g).b1 = NN.update q.b1 g.gb1 LanguageIDModel.learning_rate ∧
      (trainStep q g).b2 = NN.update q.b2 g.gb2 LanguageIDModel.learning_rate ∧
      (trainStep q g).b3 = NN.update q.b3 g.gb3 LanguageIDModel.learning_rate ∧
      (trainStep q g).WHidden = q.WHidden ∧
      (trainStep q g).WHidden2 = q.WHidden2 := by
  constructor
  · rw [train]
    simp [h]
  · exact fun q g => ⟨rfl, rfl, rfl, rfl, rfl, rfl, rfl, rfl⟩

/-- Witness for the amended C2: with validation accuracy constantly 0 the
first iteration does not terminate and applies exactly the six-parameter
update step. -/
theorem language_train_updates_witness :
    train (fun _ => 0) (fun _ _ => langGradOnes) langZeros [([[[1]]], [[1]])] =
      train (fun _ => 0) (fun _ _ => langGradOnes)
        (trainStep langZeros langGradOnes) [] ∧
    (trainStep langZeros langGradOnes).WHidden = langZeros.WHidden :=
  ⟨(language_train_updates (fun _ => 0) (fun _ _ => langGradOnes) langZeros
      ([[[1]]], [[1]]) [] (by norm_num)).1,
   ((language_train_updates (fun _ => 0) (fun _ _ => langGradOnes) langZeros
      ([[[1]]], [[1]]) [] (by norm_num)).2 langZeros langGradOnes).2.2.2.2.2.2.1⟩

/-- Claim C8: on a single-character sequence LanguageIDModel.run is the
three dense layers applied to ReLU(Linear(x_0, W_hidden)), and replacing
W_hidden2 by any matrix does not change the result: the additive
recurrent branch contributes nothing. -/
theorem language_run_single_char (p : LParams) (x : Mat) :
    LanguageIDModel.run p [x] = some (denseLayers p (NN.relu (NN.linear x p.WHidden))) ∧
    ∀ m : Mat, LanguageIDModel.run (setWHidden2 p m) [x] = LanguageIDModel.run p [x] := by
  exact ⟨rfl, fun m => rfl⟩

/-- Claim C10: LanguageIDModel.run is only defined on non-empty inputs:
on the empty list the loop never binds the hidden state and no score node
is produced (modelled as none), while every non-empty input yields a
score node. -/
theorem language_run_empty_undefined (p : LParams) :
    LanguageIDModel.run p [] = none ∧
    ∀ xs : List Mat, xs ≠ [] → (LanguageIDModel.run p xs).isSome = true := by
  constructor
  · rfl
  · intro xs hne
    cases xs with
    | nil => exact absurd rfl hne
    | cons x tl =>
      rw [LanguageIDModel.run, hState_cons]
      rfl

/-- Witness for C10: the empty input gives no score node; a concrete
one-character input does. -/
theorem language_run_empty_undefined_witness :
    LanguageIDModel.run langOnes [] = none ∧
    (LanguageIDModel.run langOnes [[[1]]]).isSome = true :=
  ⟨(language_run_empty_undefined langOnes).1,
   (language_run_empty_undefined langOnes).2 [[[1]]] (by simp)⟩

end LanguageIDTheorems

section BatchInvarianceTheorems

open LanguageIDModel

/-- getD of a mapped list at an in-range index is the function applied to
getD of the original list. -/
theorem getD_map_lt {α β : Type} (f : α → β) (d : α) (e : β) :
    ∀ (l : List α) (i : Nat), i < l.length → (l.map f).getD i e = f (l.getD i d) := by
  intro l
  induction l with
  | nil => intro i h; simp at h
  | cons hd tl ih =>
    intro i h
    cases i with
    | zero => rfl
    | succ j => simpa using ih j (by simpa using h)

/-- getD of a zipWith at an index in range of both lists. -/
theorem getD_zipWith_lt (g : List ℚ → List ℚ → List ℚ) :
    ∀ (a b : Mat) (i : Nat), i < a.length → i < b.length →
      (List.zipWith g a b).getD i [] = g (a.getD i []) (b.getD i []) := by
  intro a
  induction a with
  | nil => intro b i h _; simp at h
  | cons ha ta ih =>
    intro b i h1 h2
    cases b with
    | nil => simp at h2
    | cons hb tb =>
      cases i with
      | zero => rfl
      | succ j => simpa using ih tb j (by simpa using h1) (by simpa using h2)

/-- Row selection commutes with any row-wise map when the selected
indices are in range. -/
theorem selectRows_map (f : List ℚ → List ℚ) (a : Mat) (idxs : List Nat)
    (h : ∀ i ∈ idxs, i < a.length) :
    selectRows idxs (a.map f) = (selectRows idxs a).map f := by
  induction idxs with
  | nil => rfl
  | cons i tl ih =>
    have hh := getD_map_lt f [] [] a i (h i (by simp))
    have ht := ih (fun j hj => h j (by simp [hj]))
    show (a.map f).getD i [] :: selectRows tl (a.map f)
        = f (a.getD i []) :: (selectRows tl a).map f
    rw [hh, ht]

/-- Row selection commutes with a row-wise zipWith of two matrices when
the selected indices are in range of both. -/
theorem selectRows_zipWith (g : List ℚ → List ℚ → List ℚ) (a b : Mat) (idxs : List Nat)
    (ha : ∀ i ∈ idxs, i < a.length) (hb : ∀ i ∈ idxs, i < b.length) :
    selectRows idxs (List.zipWith g a b) =
      List.zipWith g (selectRows idxs a) (selectRows idxs b) := by
  induction idxs with
  | nil => rfl
  | cons i tl ih =>
    have hh := getD_zipWith_lt g a b i (ha i (by simp)) (hb i (by simp))
    have ht := ih (fun j hj => ha j (by simp [hj])) (fun j hj => hb j (by simp [hj]))
    show (List.zipWith g a b).getD i [] :: selectRows tl (List.zipWith g a b)
        = g (a.getD i []) (b.getD i []) :: List.zipWith g (selectRows tl a) (selectRows tl b)
    rw [hh, ht]

theorem length_linear (x w : Mat) : (NN.linear x w).length = x.length := by
  simp [NN.linear]

theorem length_relu (x : Mat) : (NN.relu x).length = x.length := by
  simp [NN.relu]

theorem length_addBias (x b : Mat) : (NN.addBias x b).length = x.length := by
  simp [NN.addBias]

theorem length_add (a b : Mat) : (NN.add a b).length = min a.length b.length := by
  simp [NN.add]

/-- Linear acts row by row, so it commutes with row selection. -/
theorem selectRows_linear (x w : Mat) (idxs : List Nat) (h : ∀ i ∈ idxs, i < x.length) :
    NN.linear (selectRows idxs x) w = selectRows idxs (NN.linear x w) :=
  (selectRows_map _ x idxs h).symm

/-- AddBias acts row by row, so it commutes with row selection. -/
theorem selectRows_addBias (x b : Mat) (idxs : List Nat) (h : ∀ i ∈ idxs, i < x.length) :
    NN.addBias (selectRows idxs x) b = selectRows idxs (NN.addBias x b) :=
  (selectRows_map _ x idxs h).symm

/-- ReLU acts row by row, so it commutes with row selection. -/
theorem selectRows_relu (x : Mat) (idxs : List Nat) (h : ∀ i ∈ idxs, i < x.length) :
    NN.relu (selectRows idxs x) = selectRows idxs (NN.relu x) :=
  (selectRows_map _ x idxs h).symm

theorem hStep_length (p : LParams) (h a : Mat) (B : Nat) (hh : h.length = B)
    (ha : a.length = B) : (hStep p h a).length = B := by
  simp [hStep, length_add, length_linear, hh, ha]

/-- The recurrence step acts row by row, so it commutes with row
selection applied to both the hidden state and the character batch. -/
theorem hStep_selectRows (p : LParams) (h a : Mat) (idxs : List Nat) (B : Nat)
    (hh : h.length = B) (ha : a.length = B) (hidx : ∀ i ∈ idxs, i < B) :
    hStep p (selectRows idxs h) (selectRows idxs a) = selectRows idxs (hStep p h a) := by
  have hxa : ∀ i ∈ idxs, i < a.length := fun i hi => by rw [ha]; exact hidx i hi
  have hxh : ∀ i ∈ idxs, i < h.length := fun i hi => by rw [hh]; exact hidx i hi
  have h1 : ∀ i ∈ idxs, i < (NN.linear a p.WHidden).length := by
    rw [length_linear]
    exact hxa
  have h2 : ∀ i ∈ idxs, i < (NN.linear h p.WHidden2).length := by
    rw [length_linear]
    exact hxh
  unfold hStep NN.add
  rw [selectRows_linear a p.WHidden idxs hxa, selectRows_linear h p.WHidden2 idxs hxh,
    ← selectRows_zipWith _ _ _ idxs h1 h2]

theorem hRec_length (p : LParams) :
    ∀ (xs : List Mat) (h : Mat) (B : Nat), h.length = B → (∀ m ∈ xs, m.length = B) →
      (hRec p h xs).length = B := by
  intro xs
  induction xs with
  | nil => intro h B hh _; exact hh
  | cons a tl ih =>
    intro h B hh hm
    show (hRec p (hStep p h a) tl).length = B
    exact ih (hStep p h a) B (hStep_length p h a B hh (hm a (by simp)))
      (fun m hm2 => hm m (by simp [hm2]))

/-- The unrolled recurrence commutes with row selection. -/
theorem hRec_selectRows (p : LParams) (idxs : List Nat) (B : Nat)
    (hidx : ∀ i ∈ idxs, i < B) :
    ∀ (xs : List Mat) (h : Mat), h.length = B → (∀ m ∈ xs, m.length = B) →
      hRec p (selectRows idxs h) (xs.map (selectRows idxs)) =
        selectRows idxs (hRec p h xs) := by
  intro xs
  induction xs with
  | nil => intro h _ _; rfl
  | cons a tl ih =>
    intro h hh hm
    have ha : a.length = B := hm a (by simp)
    show hRec p (hStep p (selectRows idxs h) (selectRows idxs a)) (tl.map (selectRows idxs))
        = selectRows idxs (hRec p (hStep p h a) tl)
    rw [hStep_selectRows p h a idxs B hh ha hidx]
    exact ih (hStep p h a) (hStep_length p h a B hh ha) (fun m hm2 => hm m (by simp [hm2]))

/-- The three dense layers act row by row, so they commute with row
selection. -/
theorem denseLayers_selectRows (p : LParams) (m : Mat) (idxs : List Nat)
    (h : ∀ i ∈ idxs, i < m.length) :
    denseLayers p (selectRows idxs m) = selectRows idxs (denseLayers p m) := by
  have l1 : ∀ i ∈ idxs, i < (NN.linear m p.w1).length := by
    rw [length_linear]; exact h
  have l2 : ∀ i ∈ idxs, i < (NN.addBias (NN.linear m p.w1) p.b1).length := by
    rw [length_addBias]; exact l1
  have l3 : ∀ i ∈ idxs, i < (NN.relu (NN.addBias (NN.linear m p.w1) p.b1)).length := by
    rw [length_relu]; exact l2
  have l4 : ∀ i ∈ idxs,
      i < (NN.linear (NN.relu (NN.addBias (NN.linear m p.w1) p.b1)) p.w2).length := by
    rw [length_linear]; exact l3
  have l5 : ∀ i ∈ idxs,
      i < (NN.addBias (NN.linear (NN.relu (NN.addBias (NN.linear m p.w1) p.b1)) p.w2)
        p.b2).length := by
    rw [length_addBias]; exact l4
  have l6 : ∀ i ∈ idxs,
      i < (NN.relu (NN.addBias (NN.linear (NN.relu (NN.addBias (NN.linear m p.w1) p.b1))
        p.w2) p.b2)).length := by
    rw [length_relu]; exact l5
  have l7 : ∀ i ∈ idxs,
      i < (NN.linear (NN.relu (NN.addBias (NN.linear (NN.relu (NN.addBias (NN.linear m p.w1)
        p.b1)) p.w2) p.b2)) p.w3).length := by
    rw [length_linear]; exact l6
  show NN.addBias (NN.linear (NN.relu (NN.addBias (NN.linear (NN.relu (NN.addBias
      (NN.linear (selectRows idxs m) p.w1) p.b1)) p.w2) p.b2)) p.w3) p.b3
    = selectRows idxs (NN.addBias (NN.linear (NN.relu (NN.addBias (NN.linear (NN.relu
      (NN.addBias (NN.linear m p.w1) p.b1)) p.w2) p.b2)) p.w3) p.b3)
  rw [selectRows_linear m p.w1 idxs h, selectRows_addBias _ p.b1 idxs l1,
    selectRows_relu _ idxs l2, selectRows_linear _ p.w2 idxs l3,
    selectRows_addBias _ p.b2 idxs l4, selectRows_relu _ idxs l5,
    selectRows_linear _ p.w3 idxs l6, selectRows_addBias _ p.b3 idxs l7]

/-- Claim C9: applying a row selection (in particular a permutation of
the batch rows) uniformly to every element of a non-empty sequence
commutes with LanguageIDModel.run, and row k of run on the permuted
batch is row idxs[k] of run on the original batch: per-example scores do
not depend on batch position. -/
theorem language_run_batch_invariance (p : LParams) (xs : List Mat) (idxs : List Nat)
    (B : Nat) (hne : xs ≠ []) (hrows : ∀ m ∈ xs, m.length = B)
    (hidx : ∀ i ∈ idxs, i < B) :
    LanguageIDModel.run p (xs.map (selectRows idxs)) =
      (LanguageIDModel.run p xs).map (selectRows idxs) ∧
    ∀ k : Nat, k < idxs.length →
      ((LanguageIDModel.run p (xs.map (selectRows idxs))).getD []).getD k [] =
        ((LanguageIDModel.run p xs).getD []).getD (idxs.getD k 0) [] := by
  obtain ⟨x, tl, rfl⟩ := List.exists_cons_of_ne_nil hne
  have hx : x.length = B := hrows x (by simp)
  have htl : ∀ m ∈ tl, m.length = B := fun m hm => hrows m (by simp [hm])
  have hseed : (NN.relu (NN.linear x p.WHidden)).length = B := by
    rw [length_relu, length_linear]
    exact hx
  have hxidx : ∀ i ∈ idxs, i < x.length := fun i hi => by rw [hx]; exact hidx i hi
  have hseedcomm : NN.relu (NN.linear (selectRows idxs x) p.WHidden)
      = selectRows idxs (NN.relu (NN.linear x p.WHidden)) := by
    rw [selectRows_linear x p.WHidden idxs hxidx,
      selectRows_relu (NN.linear x p.WHidden) idxs (by rw [length_linear]; exact hxidx)]
  have hrecsel := hRec_selectRows p idxs B hidx tl (NN.relu (NN.linear x p.WHidden)) hseed htl
  have hreclen := hRec_length p tl (NN.relu (NN.linear x p.WHidden)) B hseed htl
  have hdense := denseLayers_selectRows p (hRec p (NN.relu (NN.linear x p.WHidden)) tl) idxs
    (fun i hi => by rw [hreclen]; exact hidx i hi)
  have hmain : LanguageIDModel.run p ((x :: tl).map (selectRows idxs)) =
      (LanguageIDModel.run p (x :: tl)).map (selectRows idxs) := by
    calc LanguageIDModel.run p ((x :: tl).map (selectRows idxs))
        = some (denseLayers p (hRec p (NN.relu (NN.linear (selectRows idxs x) p.WHidden))
            (tl.map (selectRows idxs)))) := by
          rw [show (x :: tl).map (selectRows idxs)
              = selectRows idxs x :: tl.map (selectRows idxs) from rfl,
            LanguageIDModel.run, hState_cons]
          rfl
      _ = some (denseLayers p (selectRows idxs
            (hRec p (NN.relu (NN.linear x p.WHidden)) tl))) := by
          rw [hseedcomm, hrecsel]
      _ = some (selectRows idxs (denseLayers p
            (hRec p (NN.relu (NN.linear x p.WHidden)) tl))) := by
          rw [hdense]
      _ = (LanguageIDModel.run p (x :: tl)).map (selectRows idxs) := by
          rw [LanguageIDModel.run, hState_cons]
          rfl
  refine ⟨hmain, fun k hk => ?_⟩
  have hrun : LanguageIDModel.run p (x :: tl)
      = some (denseLayers p (hRec p (NN.relu (NN.linear x p.WHidden)) tl)) := by
    rw [LanguageIDModel.run, hState_cons]
    rfl
  rw [hmain, hrun]
  show (selectRows idxs (denseLayers p (hRec p (NN.relu (NN.linear x p.WHidden)) tl))).getD k []
      = (denseLayers p (hRec p (NN.relu (NN.linear x p.WHidden)) tl)).getD (idxs.getD k 0) []
  exact getD_map_lt _ 0 [] idxs k hk

/-- Witness for C9: on a 2-row one-character batch with all-ones
parameters, swapping the two rows of the input swaps the two score rows. -/
theorem language_run_batch_invariance_witness :
    LanguageIDModel.run langOnes ([[[1], [2]]].map (selectRows [1, 0])) =
      (LanguageIDModel.run langOnes [[[1], [2]]]).map (selectRows [1, 0]) :=
  (language_run_batch_invariance langOnes [[[1], [2]]] [1, 0] 2 (by simp)
    (by intro m hm; simp at hm; rw [hm]; rfl) (by decide)).1

end BatchInvarianceTheorems
